import Mathlib

/-!
# GoNews: models and middlewares

A shallow embedding of `api/models/User.go`, `api/models/Post.go` and
`api/middlewares/middlewares.go`.

* Go strings are Lean `String`s (sequences of Unicode code points).
* A Go `error` result is an `Option Error`: `none` is `nil`.
* `uint32`, `uint64` and `int64` values are natural numbers; the code does no
  arithmetic on them.
  A `uint64` passed as a query argument reaches the database only when it is
  below `2^63`.
* `time.Time` is a natural number clock reading, `0` being the zero time.
* The `*gorm.DB` handle is an explicit database value `DB` holding the rows of the
  tables `users` and `posts`; every operation returns the database it leaves behind.
-/

set_option autoImplicit false

namespace GoNews

/-! ## Errors -/

/-- Go `error` values met in the models. -/
inductive Error where
  /-- The value of `errors.New(msg)`. -/
  | New (msg : String)
  /-- The sentinel `gorm.ErrRecordNotFound`. -/
  | ErrRecordNotFound
  /-- An error reported by the database for a rejected statement. -/
  | storage (msg : String)
deriving DecidableEq, Repr

/-- The struct `User` of `User.go`. -/
structure User where
  ID : Nat
  Nickname : String
  Email : String
  Password : String
  CreatedAt : Nat
  UpdatedAt : Nat
deriving DecidableEq, Repr

/-- The zero value `User{}`. -/
def User.zero : User :=
  { ID := 0, Nickname := "", Email := "", Password := "", CreatedAt := 0, UpdatedAt := 0 }

/-- The struct `Post` of `Post.go`. -/
structure Post where
  ID : Nat
  Title : String
  Content : String
  Author : User
  AuthorID : Nat
  CreatedAt : Nat
  UpdatedAt : Nat
deriving DecidableEq, Repr

/-- The zero value `Post{}`. -/
def Post.zero : Post :=
  { ID := 0, Title := "", Content := "", Author := User.zero, AuthorID := 0,
    CreatedAt := 0, UpdatedAt := 0 }

/-! ## The string functions of the Go standard library used by `Prepare` -/

/-- Go `unicode.IsSpace`: the Latin-1 spaces `\t \n \v \f \r`, space, U+0085, U+00A0,
and above Latin-1 the code points with the `White_Space` property. -/
def IsSpace (c : Char) : Bool :=
  let r := c.toNat
  if r ≤ 0xFF then
    r == 0x09 || r == 0x0A || r == 0x0B || r == 0x0C || r == 0x0D || r == 0x20
      || r == 0x85 || r == 0xA0
  else
    r == 0x1680 || (0x2000 ≤ r && r ≤ 0x200A) || r == 0x2028 || r == 0x2029
      || r == 0x202F || r == 0x205F || r == 0x3000

/-- Go `strings.TrimSpace` on the code points of a string: all leading and all trailing
white space is removed. -/
def trimSpaceChars (l : List Char) : List Char :=
  (l.dropWhile IsSpace).rdropWhile IsSpace

/-- Go `strings.TrimSpace`. -/
def TrimSpace (s : String) : String :=
  String.mk (trimSpaceChars s.data)

/-- The replacement table of `html.EscapeString`
(`"&" "&amp;"`, `"'" "&#39;"`, `"<" "&lt;"`, `">" "&gt;"`, `"\"" "&#34;"`). -/
def escapeChar (c : Char) : List Char :=
  if c = '&' then ['&', 'a', 'm', 'p', ';']
  else if c = Char.ofNat 39 then ['&', '#', '3', '9', ';']
  else if c = '<' then ['&', 'l', 't', ';']
  else if c = '>' then ['&', 'g', 't', ';']
  else if c = '"' then ['&', '#', '3', '4', ';']
  else [c]

/-- Go `html.EscapeString` on the code points of a string. -/
def escapeChars : List Char → List Char
  | [] => []
  | c :: l => escapeChar c ++ escapeChars l

/-- Go `html.EscapeString`. -/
def EscapeString (s : String) : String :=
  String.mk (escapeChars s.data)

/-- The five characters that `html.EscapeString` replaces. -/
def isEscaped (c : Char) : Bool :=
  c == '&' || c == Char.ofNat 39 || c == '<' || c == '>' || c == '"'

/-- The five entities that `html.EscapeString` writes. -/
def entities : List (List Char) :=
  [['&', 'a', 'm', 'p', ';'], ['&', '#', '3', '9', ';'], ['&', 'l', 't', ';'],
   ['&', 'g', 't', ';'], ['&', '#', '3', '4', ';']]

/-- A text field carries no raw markup and no outer white space: it contains none of
`<`, `>`, `"`, `'`; wherever it has an `&`, one of the five entities starts there; and
neither its first nor its last character is white space. -/
def Sanitized (s : String) : Prop :=
  (∀ c ∈ s.data, c ≠ '<' ∧ c ≠ '>' ∧ c ≠ '"' ∧ c ≠ Char.ofNat 39) ∧
  (∀ t : List Char, t <:+ s.data → t.head? = some '&' → ∃ e ∈ entities, e <+: t) ∧
  (∀ c, s.data.head? = some c → IsSpace c = false) ∧
  (∀ c, s.data.getLast? = some c → IsSpace c = false)

/-! ## `User.go` -/

/-- `func (u *User) Prepare()`; `now1` and `now2` are the two readings of `time.Now()`. -/
def User.Prepare (u : User) (now1 now2 : Nat) : User :=
  { u with
    ID := 0
    Nickname := EscapeString (TrimSpace u.Nickname)
    Email := EscapeString (TrimSpace u.Email)
    CreatedAt := now1
    UpdatedAt := now2 }

/-- `func (u *User) Validate(action string) error`. The library functions
`strings.ToLower` and `checkmail.ValidateFormat` are parameters. -/
def User.Validate (ToLower : String → String) (ValidateFormat : String → Option Error)
    (u : User) (action : String) : Option Error :=
  if ToLower action = "update" then
    if u.Nickname = "" then some (Error.New "required Nickname")
    else if u.Password = "" then some (Error.New "required Password")
    else if u.Email = "" then some (Error.New "required Email")
    else if (ValidateFormat u.Email).isSome then some (Error.New "invalid Email")
    else none
  else if ToLower action = "login" then
    if u.Password = "" then some (Error.New "required Password")
    else if u.Email = "" then some (Error.New "required Email")
    else if (ValidateFormat u.Email).isSome then some (Error.New "invalid Email")
    else none
  else
    if u.Nickname = "" then some (Error.New "required Nickname")
    else if u.Password = "" then some (Error.New "required Password")
    else if u.Email = "" then some (Error.New "required Email")
    else if (ValidateFormat u.Email).isSome then some (Error.New "invalid Email")
    else none

/-! ## `Post.go`: the pure part -/

/-- `func (p *Post) Prepare()`; `now1` and `now2` are the two readings of `time.Now()`. -/
def Post.Prepare (p : Post) (now1 now2 : Nat) : Post :=
  { p with
    ID := 0
    Title := EscapeString (TrimSpace p.Title)
    Content := EscapeString (TrimSpace p.Content)
    Author := User.zero
    CreatedAt := now1
    UpdatedAt := now2 }

/-- `func (p *Post) Validate() error`. -/
def Post.Validate (p : Post) : Option Error :=
  if p.Title = "" then some (Error.New "required Title")
  else if p.Content = "" then some (Error.New "required Content")
  else if p.AuthorID < 1 then some (Error.New "required Author")
  else none

/-! ## The database behind `*gorm.DB`

The tables are the ones the struct tags declare. `posts` has the columns
`id` (primary key, auto increment), `title` (`size:255`, unique), `content` (`size:255`),
`author_id`, `created_at`, `updated_at`; the field `Author` is not a column.
No tag declares a foreign key from `author_id` to `users`, and none is modelled.
`users` has one row per `User`. Rows are kept in the order the database returns them. -/

/-- A row of the table `posts`. -/
structure PostRow where
  ID : Nat
  Title : String
  Content : String
  AuthorID : Nat
  CreatedAt : Nat
  UpdatedAt : Nat
deriving DecidableEq, Repr

/-- The columns of a `Post`. -/
def Post.toRow (p : Post) : PostRow :=
  { ID := p.ID, Title := p.Title, Content := p.Content, AuthorID := p.AuthorID,
    CreatedAt := p.CreatedAt, UpdatedAt := p.UpdatedAt }

/-- A row scanned into a fresh `Post{}`: the field `Author` stays the zero value. -/
def PostRow.toPost (r : PostRow) : Post :=
  { ID := r.ID, Title := r.Title, Content := r.Content, Author := User.zero,
    AuthorID := r.AuthorID, CreatedAt := r.CreatedAt, UpdatedAt := r.UpdatedAt }

/-- The state of the database: the rows of both tables and the last value handed out by
the auto-increment sequence of `posts.id`. -/
structure DB where
  users : List User
  posts : List PostRow
  postSeq : Nat
deriving DecidableEq, Repr

/-- What a finished gorm chain exposes: `db.Error` and `db.RowsAffected`. -/
structure Result where
  Error : Option Error
  RowsAffected : Nat
deriving DecidableEq, Repr

/-- The condition `Where("id = ?", uid)` on a row of `users`. -/
def userCond (uid : Nat) (u : User) : Bool :=
  u.ID == uid

/-- The chain `Where(cond).Take(&T{}).Delete(&T{})` on one table. `Take` reads one
matching row and sets `ErrRecordNotFound` when there is none; `Delete` does nothing on
a handle that already carries an error, and otherwise removes every row that satisfies
`cond` and reports their number. -/
def takeThenDelete {α : Type} (cond : α → Bool) (rows : List α) : List α × Result :=
  match rows.find? cond with
  | none => (rows, { Error := some Error.ErrRecordNotFound, RowsAffected := 0 })
  | some _ =>
    (rows.filter (fun r => !cond r),
      { Error := none, RowsAffected := (rows.filter cond).length })

/-- The chain `Model(&User{}).Where("id = ?", uid).Take(&out)`: the first user row with
that id is scanned into `out`. When `out` already has a non-zero primary key gorm adds
the condition `users.id = out.ID`. Without a matching row `out` is left as it was and
the error is `ErrRecordNotFound`. -/
def DB.takeUser (db : DB) (uid : Nat) (out : User) : User × Option Error :=
  match db.users.find? (fun u => userCond uid u && (out.ID == 0 || u.ID == out.ID)) with
  | some u => (u, none)
  | none => (out, some Error.ErrRecordNotFound)

/-- The chain `Model(&Post{}).Limit(n).Find(&posts)`: the first `n` rows. -/
def DB.findPosts (db : DB) (n : Nat) : List Post × Option Error :=
  ((db.posts.take n).map PostRow.toPost, none)

/-- The reason, if any, for which the table `posts` rejects a new row: a primary key or
a title already present, or a text longer than its column. -/
def DB.rejectsPost (db : DB) (r : PostRow) : Option Error :=
  if db.posts.any (fun q => q.ID == r.ID) then
    some (Error.storage "duplicate key: posts.id")
  else if db.posts.any (fun q => q.Title == r.Title) then
    some (Error.storage "duplicate key: posts.title")
  else if 255 < r.Title.length then
    some (Error.storage "value too long: posts.title")
  else if 255 < r.Content.length then
    some (Error.storage "value too long: posts.content")
  else none

/-- The time stamps of a record about to be created: gorm sets a zero `CreatedAt` and a
zero `UpdatedAt` to the clock reading `now`. -/
def stampPost (p : Post) (now : Nat) : Post :=
  { p with
    CreatedAt := if p.CreatedAt = 0 then now else p.CreatedAt
    UpdatedAt := if p.UpdatedAt = 0 then now else p.UpdatedAt }

/-- The primary key of a record about to be inserted: a zero `ID` is replaced by the
next value of the sequence. -/
def DB.keyPost (db : DB) (p : Post) : Post :=
  if p.ID = 0 then { p with ID := db.postSeq + 1 } else p

/-- The chain `Model(&Post{}).Create(&p)` for a post whose `Author` is the zero value
(as `Prepare` leaves it; gorm saves a non-blank `Author` as an association, which is
not part of this development). The time stamps and the key are filled in and the row is
appended unless the table rejects it. The post handed in is updated in place. -/
def DB.createPost (db : DB) (p : Post) (now : Nat) : DB × Post × Option Error :=
  match db.rejectsPost (db.keyPost (stampPost p now)).toRow with
  | some e => (db, stampPost p now, some e)
  | none =>
    ({ db with
        posts := db.posts ++ [(db.keyPost (stampPost p now)).toRow]
        postSeq := if p.ID = 0 then db.postSeq + 1 else db.postSeq },
      db.keyPost (stampPost p now), none)

/-! ## `Post.go`: the store operations -/

/-- `func (p *Post) SavePost(db *gorm.DB) (*Post, error)`; the database left behind is
returned as well. -/
def Post.SavePost (p : Post) (db : DB) (now : Nat) : DB × Post × Option Error :=
  match db.createPost p now with
  | (db1, _, some err) => (db1, Post.zero, some err)
  | (db1, p1, none) =>
    if p1.ID ≠ 0 then
      match db1.takeUser p1.AuthorID p1.Author with
      | (_, some err) => (db1, Post.zero, some err)
      | (a, none) => (db1, { p1 with Author := a }, none)
    else (db1, p1, none)

/-- The loop of `FindAllPosts`: the author of each post in turn is read into
`posts[i].Author`; the first failed read ends the loop with its error. -/
def enrichAuthors (db : DB) : List Post → Except Error (List Post)
  | [] => Except.ok []
  | p :: ps =>
    match db.takeUser p.AuthorID p.Author with
    | (_, some err) => Except.error err
    | (a, none) =>
      match enrichAuthors db ps with
      | Except.error err => Except.error err
      | Except.ok qs => Except.ok ({ p with Author := a } :: qs)

/-- `func (p *Post) FindAllPosts(db *gorm.DB) (*[]Post, error)`. -/
def Post.FindAllPosts (db : DB) : List Post × Option Error :=
  match db.findPosts 100 with
  | (_, some err) => ([], some err)
  | (posts, none) =>
    if posts.length > 0 then
      match enrichAuthors db posts with
      | Except.error err => ([], some err)
      | Except.ok qs => (qs, none)
    else (posts, none)

/-- `func (u *User) DeleteAUser(db *gorm.DB, uid uint32) (int64, error)`; the database
left behind is returned as well. -/
def User.DeleteAUser (db : DB) (uid : Nat) : DB × Nat × Option Error :=
  match takeThenDelete (userCond uid) db.users with
  | (rows, res) =>
    match res.Error with
    | some err => ({ db with users := rows }, 0, some err)
    | none => ({ db with users := rows }, res.RowsAffected, none)

/-! ## `middlewares.go` -/

/-- The constant `http.StatusUnauthorized`. -/
def StatusUnauthorized : Nat := 401

/-- `func SetMiddlewareAuthentication(next http.HandlerFunc) http.HandlerFunc`.
A handler acts on the state `σ` of the outside world. `auth.TokenValid` and
`responses.ERROR` are parameters. -/
def SetMiddlewareAuthentication {W R σ : Type} (TokenValid : R → Option Error)
    (ERROR : W → Nat → Error → σ → σ) (next : W → R → σ → σ) : W → R → σ → σ :=
  fun w r s =>
    match TokenValid r with
    | some _ => ERROR w StatusUnauthorized (Error.New "Unauthorized") s
    | none => next w r s

/-- What a handler can be seen to do: hand the request on, or answer with an error. -/
inductive Event (W R : Type) where
  | next (w : W) (r : R)
  | ERROR (w : W) (status : Nat) (err : Error)
deriving DecidableEq, Repr

/-- A downstream handler that only records its call. -/
def recordNext {W R : Type} (w : W) (r : R) (log : List (Event W R)) : List (Event W R) :=
  log ++ [Event.next w r]

/-- An error responder that only records its call. -/
def recordERROR {W R : Type} (w : W) (status : Nat) (err : Error)
    (log : List (Event W R)) : List (Event W R) :=
  log ++ [Event.ERROR w status err]

/-! ## Validation -/

/-- C1. `User.Validate` returns the error of the first failing check of its mode. In
login mode (the lowered action is `"login"`) the checks are Password, Email present,
Email format, and Nickname is not looked at; in every other mode they are Nickname,
Password, Email present, Email format. The result is `nil` exactly when no check of the
mode fails. -/
theorem User.Validate_user_first_failure (ToLower : String → String)
    (ValidateFormat : String → Option Error) (u : User) (action : String) :
    (ToLower action = "login" →
      (u.Password = "" →
        u.Validate ToLower ValidateFormat action = some (Error.New "required Password")) ∧
      (u.Password ≠ "" → u.Email = "" →
        u.Validate ToLower ValidateFormat action = some (Error.New "required Email")) ∧
      (u.Password ≠ "" → u.Email ≠ "" → ValidateFormat u.Email ≠ none →
        u.Validate ToLower ValidateFormat action = some (Error.New "invalid Email")) ∧
      (u.Validate ToLower ValidateFormat action = none ↔
        u.Password ≠ "" ∧ u.Email ≠ "" ∧ ValidateFormat u.Email = none)) ∧
    (ToLower action ≠ "login" →
      (u.Nickname = "" →
        u.Validate ToLower ValidateFormat action = some (Error.New "required Nickname")) ∧
      (u.Nickname ≠ "" → u.Password = "" →
        u.Validate ToLower ValidateFormat action = some (Error.New "required Password")) ∧
      (u.Nickname ≠ "" → u.Password ≠ "" → u.Email = "" →
        u.Validate ToLower ValidateFormat action = some (Error.New "required Email")) ∧
      (u.Nickname ≠ "" → u.Password ≠ "" → u.Email ≠ "" → ValidateFormat u.Email ≠ none →
        u.Validate ToLower ValidateFormat action = some (Error.New "invalid Email")) ∧
      (u.Validate ToLower ValidateFormat action = none ↔
        u.Nickname ≠ "" ∧ u.Password ≠ "" ∧ u.Email ≠ "" ∧
          ValidateFormat u.Email = none)) := by
  have hne : ("login" : String) ≠ "update" := by decide
  constructor
  · intro hlogin
    have hup : ToLower action ≠ "update" := by rw [hlogin]; exact hne
    unfold User.Validate
    rw [if_neg hup, if_pos hlogin]
    by_cases hp : u.Password = "" <;> by_cases he : u.Email = "" <;>
      cases hv : ValidateFormat u.Email <;> simp [hp, he, hv]
  · intro hlogin
    unfold User.Validate
    rw [if_neg hlogin]
    by_cases hn : u.Nickname = "" <;> by_cases hp : u.Password = "" <;>
      by_cases he : u.Email = "" <;> cases hv : ValidateFormat u.Email <;>
      simp [hn, hp, he, hv]

/-- C1 at a login with empty Password and empty Email, the action written `LOGIN`,
letters lowered as in ASCII and every address accepted: the error names Password. -/
theorem User.Validate_user_first_failure_witness :
    User.Validate (fun s => String.mk (s.data.map Char.toLower)) (fun _ => none)
        { ID := 0, Nickname := "", Email := "", Password := "", CreatedAt := 0,
          UpdatedAt := 0 } "LOGIN" =
      some (Error.New "required Password") :=
  ((User.Validate_user_first_failure (fun s => String.mk (s.data.map Char.toLower))
      (fun _ => none) _ "LOGIN").1 (by decide)).1 rfl

/-- C2. `Post.Validate` returns `nil` if and only if Title and Content are non-empty and
AuthorID is at least 1; otherwise it returns the error of the first failing check in the
order Title, Content, AuthorID. -/
theorem Post.Validate_post_first_failure (p : Post) :
    (p.Validate = none ↔ p.Title ≠ "" ∧ p.Content ≠ "" ∧ 1 ≤ p.AuthorID) ∧
    (p.Title = "" → p.Validate = some (Error.New "required Title")) ∧
    (p.Title ≠ "" → p.Content = "" → p.Validate = some (Error.New "required Content")) ∧
    (p.Title ≠ "" → p.Content ≠ "" → p.AuthorID < 1 →
      p.Validate = some (Error.New "required Author")) := by
  unfold Post.Validate
  by_cases ht : p.Title = "" <;> by_cases hc : p.Content = "" <;>
    by_cases ha : p.AuthorID < 1 <;> simp [ht, hc, ha]
  omega

/-! ## The authentication gate -/

/-- C3. `SetMiddlewareAuthentication(next)` hands the request on if and only if the
token verifier returns no error. On success the only effect is one call of `next` with
the same writer and request. On a verifier error, whichever it is, `next` is not called
and the only effect is the response with status 401 and the message "Unauthorized". -/
theorem SetMiddlewareAuthentication_gate {W R : Type} (TokenValid : R → Option Error)
    (w : W) (r : R) :
    (TokenValid r = none → ∀ (σ : Type) (ERROR : W → Nat → Error → σ → σ)
        (next : W → R → σ → σ) (s : σ),
      SetMiddlewareAuthentication TokenValid ERROR next w r s = next w r s) ∧
    (∀ e, TokenValid r = some e → ∀ (σ : Type) (ERROR : W → Nat → Error → σ → σ)
        (next : W → R → σ → σ) (s : σ),
      SetMiddlewareAuthentication TokenValid ERROR next w r s =
        ERROR w 401 (Error.New "Unauthorized") s) ∧
    (TokenValid r = none →
      SetMiddlewareAuthentication TokenValid recordERROR recordNext w r [] =
        [Event.next w r]) ∧
    (∀ e, TokenValid r = some e →
      SetMiddlewareAuthentication TokenValid recordERROR recordNext w r [] =
        [Event.ERROR w 401 (Error.New "Unauthorized")]) ∧
    ((∃ w1 r1, Event.next w1 r1 ∈
        SetMiddlewareAuthentication TokenValid recordERROR recordNext w r []) ↔
      TokenValid r = none) := by
  refine ⟨?_, ?_, ?_, ?_, ?_⟩
  · intro h σ ERROR next s
    simp only [SetMiddlewareAuthentication, h]
  · intro e h σ ERROR next s
    simp only [SetMiddlewareAuthentication, h, StatusUnauthorized]
  · intro h
    simp only [SetMiddlewareAuthentication, h, recordNext, List.nil_append]
  · intro e h
    simp only [SetMiddlewareAuthentication, h, recordERROR, StatusUnauthorized,
      List.nil_append]
  · cases h : TokenValid r <;>
      simp [SetMiddlewareAuthentication, h, recordNext, recordERROR]

/-! ## Deleting rows -/

theorem takeThenDelete_of_no_match {α : Type} (cond : α → Bool) (rows : List α)
    (h : ∀ r ∈ rows, cond r = false) :
    takeThenDelete cond rows =
      (rows, { Error := some Error.ErrRecordNotFound, RowsAffected := 0 }) := by
  have hnone : rows.find? cond = none := by
    rw [List.find?_eq_none]
    intro r hr
    simp [h r hr]
  simp [takeThenDelete, hnone]

/-- C6, as stated, fails: with the single stored user 2, deleting user 1 returns 0 rows
together with the record-not-found error of the `Take` step, not a nil error. -/
theorem User.DeleteAUser_missing_counterexample :
    (∀ u ∈ [({ ID := 2, Nickname := "n", Email := "e@x.com", Password := "h",
               CreatedAt := 1, UpdatedAt := 1 } : User)], u.ID ≠ 1) ∧
    (User.DeleteAUser
        { users := [{ ID := 2, Nickname := "n", Email := "e@x.com", Password := "h",
                      CreatedAt := 1, UpdatedAt := 1 }],
          posts := [], postSeq := 0 } 1).2 = (0, some Error.ErrRecordNotFound) ∧
    (User.DeleteAUser
        { users := [{ ID := 2, Nickname := "n", Email := "e@x.com", Password := "h",
                      CreatedAt := 1, UpdatedAt := 1 }],
          posts := [], postSeq := 0 } 1).2.2 ≠ none := by
  decide

/-- C6, amended. When no stored user has id `uid`, `User.DeleteAUser(uid)` returns
0 rows affected together with the error `gorm.ErrRecordNotFound`, and the database is
unchanged. -/
theorem User.DeleteAUser_missing (db : DB) (uid : Nat)
    (h : ∀ u ∈ db.users, u.ID ≠ uid) :
    User.DeleteAUser db uid = (db, 0, some Error.ErrRecordNotFound) := by
  have h1 : ∀ u ∈ db.users, userCond uid u = false := by
    intro u hu
    simpa [userCond] using h u hu
  simp [User.DeleteAUser, takeThenDelete_of_no_match _ _ h1]

/-- C6, amended, at the single stored user 2 and `uid = 1`. -/
theorem User.DeleteAUser_missing_witness :
    User.DeleteAUser
        { users := [{ ID := 2, Nickname := "n", Email := "e@x.com", Password := "h",
                      CreatedAt := 1, UpdatedAt := 1 }],
          posts := [], postSeq := 0 } 1 =
      ({ users := [{ ID := 2, Nickname := "n", Email := "e@x.com", Password := "h",
                     CreatedAt := 1, UpdatedAt := 1 }],
         posts := [], postSeq := 0 }, 0, some Error.ErrRecordNotFound) :=
  User.DeleteAUser_missing _ 1 (by decide)

/-! ## Creating a post -/

theorem DB.takeUser_of_no_match (db : DB) (uid : Nat) (out : User)
    (h : ∀ u ∈ db.users, u.ID ≠ uid) :
    db.takeUser uid out = (out, some Error.ErrRecordNotFound) := by
  have hnone : db.users.find?
      (fun u => userCond uid u && (out.ID == 0 || u.ID == out.ID)) = none := by
    rw [List.find?_eq_none]
    intro u hu
    simp [userCond, h u hu]
  simp [DB.takeUser, hnone]

/-- C5, as stated, fails: with the single stored user 1, saving a post of author 7
returns the record-not-found error of the author lookup, and the row inserted before the
lookup is in the table afterwards. -/
theorem Post.SavePost_missing_author_counterexample :
    (∀ u ∈ [({ ID := 1, Nickname := "alice", Email := "a@x.com", Password := "h",
               CreatedAt := 1, UpdatedAt := 1 } : User)], u.ID ≠ 7) ∧
    Post.SavePost
        { ID := 0, Title := "Hi", Content := "World", Author := User.zero, AuthorID := 7,
          CreatedAt := 0, UpdatedAt := 0 }
        { users := [{ ID := 1, Nickname := "alice", Email := "a@x.com", Password := "h",
                      CreatedAt := 1, UpdatedAt := 1 }],
          posts := [], postSeq := 0 } 10 =
      ({ users := [{ ID := 1, Nickname := "alice", Email := "a@x.com", Password := "h",
                     CreatedAt := 1, UpdatedAt := 1 }],
         posts := [{ ID := 1, Title := "Hi", Content := "World", AuthorID := 7,
                     CreatedAt := 10, UpdatedAt := 10 }],
         postSeq := 1 }, Post.zero, some Error.ErrRecordNotFound) ∧
    (Post.SavePost
        { ID := 0, Title := "Hi", Content := "World", Author := User.zero, AuthorID := 7,
          CreatedAt := 0, UpdatedAt := 0 }
        { users := [{ ID := 1, Nickname := "alice", Email := "a@x.com", Password := "h",
                      CreatedAt := 1, UpdatedAt := 1 }],
          posts := [], postSeq := 0 } 10).1.posts ≠ [] := by
  decide

/-- C5, amended. For a post whose `Author` is the zero value (as `Prepare` leaves it)
and whose AuthorID matches no stored user, `SavePost` returns an error and the zero
`Post`, and changes no user row. There is no rollback: the posts are unchanged only when
the insert itself was rejected; when the insert was accepted, the table holds the rows
it had before followed by the new row with the post's Title, Content and AuthorID. -/
theorem Post.SavePost_missing_author (db : DB) (p : Post) (now : Nat)
    (hblank : p.Author = User.zero) (h : ∀ u ∈ db.users, u.ID ≠ p.AuthorID) :
    (p.SavePost db now).2.2 ≠ none ∧
    (p.SavePost db now).2.1 = Post.zero ∧
    (p.SavePost db now).1.users = db.users ∧
    ((db.createPost p now).2.2 ≠ none → (p.SavePost db now).1 = db) ∧
    ((db.createPost p now).2.2 = none →
      ∃ row : PostRow, row.Title = p.Title ∧ row.Content = p.Content ∧
        row.AuthorID = p.AuthorID ∧ row.ID ≠ 0 ∧
        (p.SavePost db now).1.posts = db.posts ++ [row]) := by
  have _ := hblank
  have hkey : (db.keyPost (stampPost p now)).ID ≠ 0 ∧
      (db.keyPost (stampPost p now)).AuthorID = p.AuthorID ∧
      (db.keyPost (stampPost p now)).Title = p.Title ∧
      (db.keyPost (stampPost p now)).Content = p.Content := by
    unfold DB.keyPost stampPost
    by_cases hid : p.ID = 0 <;> simp [hid]
  obtain ⟨hk1, hk2, hk3, hk4⟩ := hkey
  cases hrej : db.rejectsPost (db.keyPost (stampPost p now)).toRow with
  | some e => simp [Post.SavePost, DB.createPost, hrej]
  | none =>
    have hrun : p.SavePost db now =
        ({ db with
            posts := db.posts ++ [(db.keyPost (stampPost p now)).toRow]
            postSeq := if p.ID = 0 then db.postSeq + 1 else db.postSeq },
          Post.zero, some Error.ErrRecordNotFound) := by
      have hu : ∀ u ∈ db.users, u.ID ≠ (db.keyPost (stampPost p now)).AuthorID := by
        rw [hk2]; exact h
      simp only [Post.SavePost, DB.createPost, hrej, ne_eq, hk1, not_false_eq_true,
        if_true]
      rw [DB.takeUser_of_no_match]
      exact hu
    rw [hrun]
    refine ⟨by simp, rfl, rfl, ?_, ?_⟩
    · intro hc
      simp [DB.createPost, hrej] at hc
    · intro _
      exact ⟨(db.keyPost (stampPost p now)).toRow, hk3, hk4, hk2, hk1, rfl⟩

/-- C5, amended, at a post of author 7 saved while only user 1 is stored. -/
theorem Post.SavePost_missing_author_witness :
    (Post.SavePost
        { ID := 0, Title := "Hi", Content := "World", Author := User.zero, AuthorID := 7,
          CreatedAt := 0, UpdatedAt := 0 }
        { users := [{ ID := 1, Nickname := "alice", Email := "a@x.com", Password := "h",
                      CreatedAt := 1, UpdatedAt := 1 }],
          posts := [], postSeq := 0 } 10).2.2 ≠ none :=
  (Post.SavePost_missing_author _ _ 10 rfl (by decide)).1

/-! ## Reading all posts -/

theorem DB.takeUser_of_match (db : DB) (uid : Nat) (out : User) (hout : out.ID = 0)
    (h : ∃ u ∈ db.users, u.ID = uid) :
    ∃ a, db.takeUser uid out = (a, none) ∧ a ∈ db.users ∧ a.ID = uid ∧
      db.users.find? (userCond uid) = some a := by
  have hsame : db.users.find? (fun u => userCond uid u && (out.ID == 0 || u.ID == out.ID))
      = db.users.find? (userCond uid) := by
    congr 1
    funext u
    simp [hout]
  cases hf : db.users.find? (userCond uid) with
  | none =>
    obtain ⟨u, hu, hid⟩ := h
    rw [List.find?_eq_none] at hf
    exact absurd (by simp [userCond, hid]) (hf u hu)
  | some a =>
    refine ⟨a, ?_, List.mem_of_find?_eq_some hf, ?_, rfl⟩
    · simp [DB.takeUser, hsame, hf]
    · have := List.find?_some hf
      simpa [userCond] using this

theorem enrichAuthors_of_missing (db : DB) (ps : List Post)
    (h : ∃ p ∈ ps, ∀ u ∈ db.users, u.ID ≠ p.AuthorID) :
    ∃ err, enrichAuthors db ps = Except.error err := by
  induction ps with
  | nil => simp at h
  | cons p ps ih =>
    unfold enrichAuthors
    rcases hp : db.takeUser p.AuthorID p.Author with ⟨a, _ | e⟩
    · have hrest : ∃ q ∈ ps, ∀ u ∈ db.users, u.ID ≠ q.AuthorID := by
        obtain ⟨q, hq, hno⟩ := h
        rcases List.mem_cons.mp hq with rfl | hq
        · rw [DB.takeUser_of_no_match db _ _ hno] at hp
          simp at hp
        · exact ⟨q, hq, hno⟩
      obtain ⟨err, herr⟩ := ih hrest
      exact ⟨err, by simp [herr]⟩
    · exact ⟨e, rfl⟩

theorem enrichAuthors_of_found (db : DB) (rows : List PostRow)
    (h : ∀ r ∈ rows, ∃ u ∈ db.users, u.ID = r.AuthorID) :
    ∃ qs, enrichAuthors db (rows.map PostRow.toPost) = Except.ok qs ∧
      List.Forall₂ (fun r q => Post.toRow q = r ∧ q.Author ∈ db.users ∧
          q.Author.ID = r.AuthorID ∧
          db.users.find? (userCond r.AuthorID) = some q.Author) rows qs := by
  induction rows with
  | nil => exact ⟨[], rfl, List.Forall₂.nil⟩
  | cons r rows ih =>
    obtain ⟨qs, hqs, hall⟩ := ih (fun x hx => h x (List.mem_cons_of_mem _ hx))
    obtain ⟨a, ha, hmem, hid, hfind⟩ :=
      DB.takeUser_of_match db r.AuthorID User.zero rfl (h r (List.mem_cons_self _ _))
    refine ⟨{ r.toPost with Author := a } :: qs, ?_, ?_⟩
    · simp only [List.map_cons, enrichAuthors]
      have ha2 : db.takeUser r.toPost.AuthorID r.toPost.Author = (a, none) := ha
      rw [ha2, hqs]
    · exact List.Forall₂.cons ⟨rfl, hmem, hid, hfind⟩ hall

/-- C8. `Post.FindAllPosts` is all-or-nothing. The posts read are the first 100 rows at
most. If some post read has an AuthorID that matches no stored user, the call returns an
error together with an empty list. If every post read has a stored author, the call
returns no error and one post for each row read, in the order read, with the columns of
that row and with Author the stored user whose id is the row's AuthorID. -/
theorem Post.FindAllPosts_all_or_nothing (db : DB) :
    (db.posts.take 100).length ≤ 100 ∧
    ((∃ r ∈ db.posts.take 100, ∀ u ∈ db.users, u.ID ≠ r.AuthorID) →
      ∃ err, Post.FindAllPosts db = ([], some err)) ∧
    ((∀ r ∈ db.posts.take 100, ∃ u ∈ db.users, u.ID = r.AuthorID) →
      (Post.FindAllPosts db).2 = none ∧
      List.Forall₂ (fun r q => Post.toRow q = r ∧ q.Author ∈ db.users ∧
          q.Author.ID = r.AuthorID ∧
          db.users.find? (userCond r.AuthorID) = some q.Author)
        (db.posts.take 100) (Post.FindAllPosts db).1) := by
  refine ⟨by simp, ?_, ?_⟩
  · rintro ⟨r, hr, hno⟩
    have hmiss : ∃ p ∈ (db.posts.take 100).map PostRow.toPost,
        ∀ u ∈ db.users, u.ID ≠ p.AuthorID :=
      ⟨r.toPost, List.mem_map_of_mem _ hr, hno⟩
    obtain ⟨err, herr⟩ := enrichAuthors_of_missing db _ hmiss
    have hpos : 0 < (db.posts.take 100).length := List.length_pos_of_mem hr
    refine ⟨err, ?_⟩
    simp only [Post.FindAllPosts, DB.findPosts, List.length_map, gt_iff_lt, hpos,
      if_true, herr]
  · intro h
    obtain ⟨qs, hqs, hall⟩ := enrichAuthors_of_found db _ h
    by_cases hpos : 0 < (db.posts.take 100).length
    · have hrun : Post.FindAllPosts db = (qs, none) := by
        simp only [Post.FindAllPosts, DB.findPosts, List.length_map, gt_iff_lt, hpos,
          if_true, hqs]
      rw [hrun]
      exact ⟨rfl, hall⟩
    · have hnil : db.posts.take 100 = [] := by
        cases hl : db.posts.take 100 with
        | nil => rfl
        | cons x xs => rw [hl] at hpos; simp at hpos
      have hrun : Post.FindAllPosts db = ([], none) := by
        simp [Post.FindAllPosts, DB.findPosts, hnil]
      rw [hrun, hnil]
      exact ⟨rfl, List.Forall₂.nil⟩

/-! ## Sanitizing text fields -/

theorem escapeChars_append (l m : List Char) :
    escapeChars (l ++ m) = escapeChars l ++ escapeChars m := by
  induction l with
  | nil => rfl
  | cons c l ih => simp [escapeChars, ih]

/-- A character is either replaced by one of the five entities or kept. -/
theorem escapeChar_cases (c : Char) :
    (isEscaped c = true ∧ escapeChar c ∈ entities) ∨
    (isEscaped c = false ∧ escapeChar c = [c]) := by
  unfold escapeChar isEscaped entities
  by_cases h1 : c = '&'
  · left; subst h1; decide
  by_cases h2 : c = Char.ofNat 39
  · left; subst h2; decide
  by_cases h3 : c = '<'
  · left; subst h3; decide
  by_cases h4 : c = '>'
  · left; subst h4; decide
  by_cases h5 : c = '"'
  · left; subst h5; decide
  right
  simp [h1, h2, h3, h4, h5]

theorem entities_shape (e : List Char) (he : e ∈ entities) :
    (∃ m, e = '&' :: (m ++ [';'])) ∧
    (∀ x ∈ e, x ≠ '<' ∧ x ≠ '>' ∧ x ≠ '"' ∧ x ≠ Char.ofNat 39 ∧ IsSpace x = false) ∧
    (∀ t : List Char, t <:+ e → t.head? = some '&' → t = e) ∧ 2 ≤ e.length := by
  simp only [entities, List.mem_cons, List.mem_singleton, List.not_mem_nil, or_false] at he
  rcases he with rfl | rfl | rfl | rfl | rfl
  · refine ⟨⟨['a', 'm', 'p'], rfl⟩, by decide, ?_, by decide⟩
    intro t ht hh
    simp only [List.suffix_cons_iff, List.suffix_nil] at ht
    rcases ht with rfl | rfl | rfl | rfl | rfl | rfl <;> first | rfl | (exact absurd hh (by decide))
  · refine ⟨⟨['#', '3', '9'], rfl⟩, by decide, ?_, by decide⟩
    intro t ht hh
    simp only [List.suffix_cons_iff, List.suffix_nil] at ht
    rcases ht with rfl | rfl | rfl | rfl | rfl | rfl <;> first | rfl | (exact absurd hh (by decide))
  · refine ⟨⟨['l', 't'], rfl⟩, by decide, ?_, by decide⟩
    intro t ht hh
    simp only [List.suffix_cons_iff, List.suffix_nil] at ht
    rcases ht with rfl | rfl | rfl | rfl | rfl <;> first | rfl | (exact absurd hh (by decide))
  · refine ⟨⟨['g', 't'], rfl⟩, by decide, ?_, by decide⟩
    intro t ht hh
    simp only [List.suffix_cons_iff, List.suffix_nil] at ht
    rcases ht with rfl | rfl | rfl | rfl | rfl <;> first | rfl | (exact absurd hh (by decide))
  · refine ⟨⟨['#', '3', '4'], rfl⟩, by decide, ?_, by decide⟩
    intro t ht hh
    simp only [List.suffix_cons_iff, List.suffix_nil] at ht
    rcases ht with rfl | rfl | rfl | rfl | rfl | rfl <;> first | rfl | (exact absurd hh (by decide))

theorem isEscaped_false_iff (c : Char) :
    isEscaped c = false ↔
      c ≠ '&' ∧ c ≠ Char.ofNat 39 ∧ c ≠ '<' ∧ c ≠ '>' ∧ c ≠ '"' := by
  simp [isEscaped, and_assoc]

theorem isSpace_false_of_isEscaped (c : Char) (h : isEscaped c = true) :
    IsSpace c = false := by
  simp only [isEscaped, Bool.or_eq_true, beq_iff_eq] at h
  rcases h with (((rfl | rfl) | rfl) | rfl) | rfl <;> decide

theorem suffix_append_cases (a b t : List Char) (h : t <:+ a ++ b) :
    t <:+ b ∨ ∃ s, s ≠ [] ∧ s <:+ a ∧ t = s ++ b := by
  induction a with
  | nil => left; simpa using h
  | cons x a ih =>
    rw [List.cons_append, List.suffix_cons_iff] at h
    rcases h with rfl | h
    · right
      exact ⟨x :: a, by simp, List.suffix_refl _, rfl⟩
    · rcases ih h with h | ⟨s, hs, hsa, rfl⟩
      · left; exact h
      · right
        exact ⟨s, hs, List.suffix_cons_iff.mpr (Or.inr hsa), rfl⟩

theorem escapeChars_no_markup (l : List Char) :
    ∀ x ∈ escapeChars l, x ≠ '<' ∧ x ≠ '>' ∧ x ≠ '"' ∧ x ≠ Char.ofNat 39 := by
  induction l with
  | nil => simp [escapeChars]
  | cons c l ih =>
    intro x hx
    rw [escapeChars, List.mem_append] at hx
    rcases hx with hx | hx
    · rcases escapeChar_cases c with ⟨_, he⟩ | ⟨hc, he⟩
      · obtain ⟨h1, h2, h3, h4, _⟩ := (entities_shape _ he).2.1 x hx
        exact ⟨h1, h2, h3, h4⟩
      · rw [he, List.mem_singleton] at hx
        subst hx
        obtain ⟨_, h2, h3, h4, h5⟩ := (isEscaped_false_iff x).mp hc
        exact ⟨h3, h4, h5, h2⟩
    · exact ih x hx

theorem escapeChars_amp_entity (l : List Char) :
    ∀ t : List Char, t <:+ escapeChars l → t.head? = some '&' →
      ∃ e ∈ entities, e <+: t := by
  induction l with
  | nil =>
    intro t ht hh
    rw [escapeChars, List.suffix_nil] at ht
    subst ht
    simp at hh
  | cons c l ih =>
    intro t ht hh
    rw [escapeChars] at ht
    rcases suffix_append_cases _ _ _ ht with ht | ⟨s, hs, hsc, rfl⟩
    · exact ih t ht hh
    · have hhs : s.head? = some '&' := by
        rw [List.head?_append_of_ne_nil _ hs] at hh
        exact hh
      rcases escapeChar_cases c with ⟨_, he⟩ | ⟨hc, he⟩
      · have hse : s = escapeChar c := (entities_shape _ he).2.2.1 s hsc hhs
        exact ⟨escapeChar c, he, by rw [hse]; exact List.prefix_append _ _⟩
      · rw [he, List.suffix_cons_iff, List.suffix_nil] at hsc
        rcases hsc with rfl | rfl
        · simp only [List.head?_cons, Option.some.injEq] at hhs
          subst hhs
          exact absurd hc (by decide)
        · exact absurd rfl hs

theorem escapeChars_head (l : List Char) (x : Char) (h : (escapeChars l).head? = some x) :
    x = '&' ∨ l.head? = some x := by
  cases l with
  | nil => simp [escapeChars] at h
  | cons c l =>
    rcases escapeChar_cases c with ⟨_, he⟩ | ⟨_, he⟩
    · obtain ⟨m, hm⟩ := (entities_shape _ he).1
      rw [escapeChars, hm] at h
      left
      simpa using h.symm
    · rw [escapeChars, he] at h
      right
      simpa using h

theorem escapeChars_getLast (l : List Char) (x : Char)
    (h : (escapeChars l).getLast? = some x) : x = ';' ∨ l.getLast? = some x := by
  induction l using List.reverseRecOn with
  | nil => simp [escapeChars] at h
  | append_singleton l c _ =>
    rw [escapeChars_append] at h
    have hc : escapeChars [c] = escapeChar c := by simp [escapeChars]
    rw [hc] at h
    rcases escapeChar_cases c with ⟨_, he⟩ | ⟨_, he⟩
    · obtain ⟨m, hm⟩ := (entities_shape _ he).1
      rw [hm, ← List.cons_append, ← List.append_assoc,
        List.getLast?_append_of_ne_nil _ (by simp)] at h
      left
      simpa using h.symm
    · rw [he, List.getLast?_append_of_ne_nil _ (by simp)] at h
      right
      rw [List.getLast?_append_of_ne_nil _ (by simp)]
      exact h

theorem trimSpaceChars_head (l : List Char) (x : Char)
    (h : (trimSpaceChars l).head? = some x) : IsSpace x = false := by
  unfold trimSpaceChars at h
  obtain ⟨m, hm⟩ := List.rdropWhile_prefix IsSpace (l.dropWhile IsSpace)
  cases ht : List.rdropWhile IsSpace (l.dropWhile IsSpace) with
  | nil => rw [ht] at h; simp at h
  | cons y t =>
    rw [ht] at h hm
    simp only [List.head?_cons, Option.some.injEq] at h
    subst h
    have hne : l.dropWhile IsSpace ≠ [] := by rw [← hm]; simp
    have := List.head_dropWhile_not IsSpace l hne
    simpa [← hm] using this

theorem trimSpaceChars_getLast (l : List Char) (x : Char)
    (h : (trimSpaceChars l).getLast? = some x) : IsSpace x = false := by
  unfold trimSpaceChars at h
  have hne : List.rdropWhile IsSpace (l.dropWhile IsSpace) ≠ [] := by
    intro h0; rw [h0] at h; simp at h
  have := List.rdropWhile_last_not IsSpace (l.dropWhile IsSpace) hne
  rw [List.getLast?_eq_getLast _ hne, Option.some.injEq] at h
  rw [h] at this
  simpa using this

/-- The result of trimming and escaping a text is sanitized. -/
theorem sanitized_escape_trim (s : String) : Sanitized (EscapeString (TrimSpace s)) := by
  refine ⟨?_, ?_, ?_, ?_⟩
  · exact escapeChars_no_markup _
  · exact escapeChars_amp_entity _
  · intro c hc
    rcases escapeChars_head _ c hc with rfl | h
    · decide
    · exact trimSpaceChars_head _ c h
  · intro c hc
    rcases escapeChars_getLast _ c hc with rfl | h
    · decide
    · exact trimSpaceChars_getLast _ c h

/-- C10. After `User.Prepare` the Nickname and the Email, and after `Post.Prepare` the
Title and the Content, contain none of `<`, `>`, `"`, `'`, have an entity of the escaper
starting at each `&`, and neither begin nor end with a white space character. -/
theorem Prepare_sanitized (u : User) (p : Post) (now1 now2 : Nat) :
    Sanitized (u.Prepare now1 now2).Nickname ∧ Sanitized (u.Prepare now1 now2).Email ∧
    Sanitized (p.Prepare now1 now2).Title ∧ Sanitized (p.Prepare now1 now2).Content :=
  ⟨sanitized_escape_trim _, sanitized_escape_trim _, sanitized_escape_trim _,
    sanitized_escape_trim _⟩

/-! ## Sanitizing twice -/

theorem escapeChars_length_le (l : List Char) : l.length ≤ (escapeChars l).length := by
  induction l with
  | nil => simp
  | cons c l ih =>
    rw [escapeChars, List.length_append, List.length_cons]
    have : 1 ≤ (escapeChar c).length := by
      rcases escapeChar_cases c with ⟨_, he⟩ | ⟨_, he⟩
      · have := (entities_shape _ he).2.2.2
        omega
      · simp [he]
    omega

theorem escapeChars_eq_self_iff (l : List Char) :
    escapeChars l = l ↔ ∀ c ∈ l, isEscaped c = false := by
  induction l with
  | nil => simp [escapeChars]
  | cons c l ih =>
    rw [escapeChars]
    rcases escapeChar_cases c with ⟨hc, he⟩ | ⟨hc, he⟩
    · constructor
      · intro h
        have hlen := congrArg List.length h
        rw [List.length_append, List.length_cons] at hlen
        have h2 := (entities_shape _ he).2.2.2
        have h3 := escapeChars_length_le l
        omega
      · intro h
        have := h c (List.mem_cons_self _ _)
        rw [hc] at this
        exact absurd this (by decide)
    · rw [he, List.singleton_append, List.cons.injEq]
      simp only [true_and, List.mem_cons, forall_eq_or_imp, hc]
      exact ih

theorem amp_mem_escapeChars (l : List Char) (c : Char) (hc : c ∈ l)
    (he : isEscaped c = true) : '&' ∈ escapeChars l := by
  induction l with
  | nil => simp at hc
  | cons x l ih =>
    rw [escapeChars, List.mem_append]
    rcases List.mem_cons.mp hc with rfl | hc
    · left
      rcases escapeChar_cases c with ⟨_, hent⟩ | ⟨hn, _⟩
      · obtain ⟨m, hm⟩ := (entities_shape _ hent).1
        rw [hm]
        exact List.mem_cons_self _ _
      · rw [he] at hn
        exact absurd hn (by decide)
    · right
      exact ih hc

theorem mem_dropWhile_of_not {p : Char → Bool} (l : List Char) (c : Char) (hc : c ∈ l)
    (hp : p c = false) : c ∈ l.dropWhile p := by
  induction l with
  | nil => simp at hc
  | cons x l ih =>
    rw [List.dropWhile_cons]
    by_cases hx : p x = true
    · rw [if_pos hx]
      rcases List.mem_cons.mp hc with rfl | hc
      · rw [hp] at hx
        exact absurd hx (by decide)
      · exact ih hc
    · rw [if_neg hx]
      exact hc

theorem mem_trimSpaceChars_iff_of_not (l : List Char) (c : Char) (hp : IsSpace c = false) :
    c ∈ trimSpaceChars l ↔ c ∈ l := by
  unfold trimSpaceChars List.rdropWhile
  constructor
  · intro h
    rw [List.mem_reverse] at h
    have h1 := (List.dropWhile_suffix IsSpace).subset h
    rw [List.mem_reverse] at h1
    exact (List.dropWhile_suffix IsSpace).subset h1
  · intro h
    rw [List.mem_reverse]
    apply mem_dropWhile_of_not _ _ _ hp
    rw [List.mem_reverse]
    exact mem_dropWhile_of_not _ _ h hp

theorem trimSpaceChars_eq_self (l : List Char)
    (hh : ∀ c, l.head? = some c → IsSpace c = false)
    (hl : ∀ c, l.getLast? = some c → IsSpace c = false) : trimSpaceChars l = l := by
  unfold trimSpaceChars
  have h1 : l.dropWhile IsSpace = l := by
    rw [List.dropWhile_eq_self_iff]
    intro hpos
    have hget : l.head? = some (l.get ⟨0, hpos⟩) := by
      cases l with
      | nil => simp at hpos
      | cons x l => rfl
    rw [hh _ hget]
    exact Bool.false_ne_true
  rw [h1, List.rdropWhile_eq_self_iff]
  intro hne
  simp [hl _ (List.getLast?_eq_getLast _ hne)]

/-- Sanitizing a text a second time gives the same text exactly when the text has none
of the five characters that the escaper replaces. -/
theorem escape_trim_twice_iff (s : String) :
    EscapeString (TrimSpace (EscapeString (TrimSpace s))) = EscapeString (TrimSpace s) ↔
      ∀ c ∈ s.data, isEscaped c = false := by
  have hsan := sanitized_escape_trim s
  have htrim : trimSpaceChars (escapeChars (trimSpaceChars s.data)) =
      escapeChars (trimSpaceChars s.data) :=
    trimSpaceChars_eq_self _ hsan.2.2.1 hsan.2.2.2
  have hstep : EscapeString (TrimSpace (EscapeString (TrimSpace s))) =
      String.mk (escapeChars (escapeChars (trimSpaceChars s.data))) := by
    simp only [EscapeString, TrimSpace, htrim]
  rw [hstep]
  simp only [EscapeString, TrimSpace]
  rw [String.ext_iff]
  show escapeChars (escapeChars (trimSpaceChars s.data)) =
    escapeChars (trimSpaceChars s.data) ↔ _
  rw [escapeChars_eq_self_iff]
  constructor
  · intro h c hc
    cases hesc : isEscaped c with
    | false => rfl
    | true =>
      have hct : c ∈ trimSpaceChars s.data :=
        (mem_trimSpaceChars_iff_of_not _ c (isSpace_false_of_isEscaped c hesc)).mpr hc
      have := h '&' (amp_mem_escapeChars _ c hct hesc)
      exact absurd this (by decide)
  · intro h
    have hclean : ∀ c ∈ trimSpaceChars s.data, isEscaped c = false := by
      intro c hc
      unfold trimSpaceChars at hc
      exact h c ((List.dropWhile_suffix IsSpace).subset
        ((List.rdropWhile_prefix IsSpace _).subset hc))
    rw [(escapeChars_eq_self_iff _).mpr hclean]
    exact hclean

/-- C7, as stated, fails: preparing the nickname `a&b` gives `a&amp;b`, and preparing
that again gives `a&amp;amp;b`. -/
theorem User.Prepare_twice_counterexample :
    (User.Prepare { ID := 3, Nickname := "a&b", Email := "a@x.com", Password := "pw",
                    CreatedAt := 0, UpdatedAt := 0 } 1 1).Nickname = "a&amp;b" ∧
    ((User.Prepare { ID := 3, Nickname := "a&b", Email := "a@x.com", Password := "pw",
                     CreatedAt := 0, UpdatedAt := 0 } 1 1).Prepare 1 1).Nickname =
      "a&amp;amp;b" ∧
    ((User.Prepare { ID := 3, Nickname := "a&b", Email := "a@x.com", Password := "pw",
                     CreatedAt := 0, UpdatedAt := 0 } 1 1).Prepare 1 1).Nickname ≠
      (User.Prepare { ID := 3, Nickname := "a&b", Email := "a@x.com", Password := "pw",
                      CreatedAt := 0, UpdatedAt := 0 } 1 1).Nickname := by
  decide

/-- C7, amended. Applying `Prepare` to the result of `Prepare(u)` yields the same ID;
it yields the same Nickname exactly when the Nickname of `u` contains none of the
characters `&`, `'`, `<`, `>`, `"`, and the same Email exactly when the Email of `u`
contains none of them. On such input `Prepare` is idempotent, whatever the clock
readings. -/
theorem User.Prepare_twice (u : User) (now1 now2 now3 now4 : Nat) :
    ((u.Prepare now1 now2).Prepare now3 now4).ID = (u.Prepare now1 now2).ID ∧
    (((u.Prepare now1 now2).Prepare now3 now4).Nickname = (u.Prepare now1 now2).Nickname ↔
      ∀ c ∈ u.Nickname.data, isEscaped c = false) ∧
    (((u.Prepare now1 now2).Prepare now3 now4).Email = (u.Prepare now1 now2).Email ↔
      ∀ c ∈ u.Email.data, isEscaped c = false) :=
  ⟨rfl, escape_trim_twice_iff u.Nickname, escape_trim_twice_iff u.Email⟩

end GoNews
